import Mathlib

/-!
Shallow embedding of `pesel_generator.py` (Sidolux/pesel_generator):
the PESEL encoder (check digit, sequential/sex digits, century-aware date
formatting) and the year-range enumerator, together with proofs of the
specification's testable properties.

Identifiers are modelled as lists of decimal digit values (`List Nat`,
each entry `< 10`): a Python digit string of length `n` corresponds to a
digit list of length `n`. Python's `f"{n:0wd}"` zero-padded formatting of
a nonnegative integer is modelled by `padDigits w n`.
-/

namespace Pesel

/-- Python `f"{n:0wd}"` for a nonnegative integer `n`: the decimal digits
of `n` (big-endian), left-padded with zeros to a minimum width `w`. -/
def padDigits (w n : Nat) : List Nat :=
  let ds := (Nat.digits 10 n).reverse
  List.replicate (w - ds.length) 0 ++ ds

/-- Numeric value of a big-endian digit list. -/
def digitsVal (L : List Nat) : Nat :=
  Nat.ofDigits 10 L.reverse

/-- `calculate_check_digit` (pesel_generator.py, lines 10-17): weighted sum
of the first 10 digits with weights `[1,3,7,9,1,3,7,9,1,3]`, then
`(10 - total % 10) % 10`. -/
def calculate_check_digit (pesel_base : List Nat) : Nat :=
  let weights : List Nat := [1, 3, 7, 9, 1, 3, 7, 9, 1, 3]
  let total := (List.zipWith (· * ·) pesel_base weights).sum
  (10 - total % 10) % 10

/-- The numeric adjustment inside `generate_sequential_and_sex_digits`
(pesel_generator.py, lines 30-40): clamp into `[0, 9999]`, then if the
parity does not match the requested sex (odd = male, even = female),
add 1 for male or subtract 1 for female. -/
def adjustedSeq (sequential_number : Int) (is_male : Bool) : Int :=
  let s := max 0 (min 9999 sequential_number)
  let is_odd := s % 2 == 1
  if is_male != is_odd then
    (if is_male then s + 1 else s - 1)
  else s

/-- `generate_sequential_and_sex_digits` (pesel_generator.py, lines 20-43):
digits 7-10 of the PESEL, the parity-adjusted sequential number formatted
as 4 zero-padded digits. -/
def generate_sequential_and_sex_digits (sequential_number : Int) (is_male : Bool) :
    List Nat :=
  padDigits 4 (adjustedSeq sequential_number is_male).toNat

/-- A calendar date, as carried by Python's `datetime.datetime`. -/
structure CalendarDate where
  year : Nat
  month : Nat
  day : Nat
  deriving DecidableEq, Repr

/-- Gregorian leap-year test. -/
def isLeapYear (y : Nat) : Bool :=
  (y % 4 == 0 && y % 100 != 0) || y % 400 == 0

/-- Number of days in a month of the proleptic Gregorian calendar. -/
def daysInMonth (year month : Nat) : Nat :=
  if month = 2 then (if isLeapYear year then 29 else 28)
  else if month = 4 ∨ month = 6 ∨ month = 9 ∨ month = 11 then 30
  else 31

/-- Validity of a calendar date, as enforced by `datetime.datetime`'s
constructor (year at least `datetime.MINYEAR = 1`, month in 1-12, day in
range for the month). -/
def ValidDate (d : CalendarDate) : Prop :=
  1 ≤ d.year ∧ 1 ≤ d.month ∧ d.month ≤ 12 ∧ 1 ≤ d.day ∧
    d.day ≤ daysInMonth d.year d.month

instance (d : CalendarDate) : Decidable (ValidDate d) := by
  unfold ValidDate; infer_instance

/-- Python `date + timedelta(days=1)`: the Gregorian successor day. -/
def nextDay (d : CalendarDate) : CalendarDate :=
  if d.day < daysInMonth d.year d.month then ⟨d.year, d.month, d.day + 1⟩
  else if d.month < 12 then ⟨d.year, d.month + 1, 1⟩
  else ⟨d.year + 1, 1, 1⟩

/-- Number of leap years in `[1, y]`. -/
def leaps (y : Nat) : Nat :=
  y / 4 - y / 100 + y / 400

/-- Sum of the lengths of months `1..m` of a year. -/
def monthDaysSum (year : Nat) : Nat → Nat
  | 0 => 0
  | m + 1 => monthDaysSum year m + daysInMonth year (m + 1)

/-- Proleptic Gregorian day number (1 for year 1, January 1), the order on
which `datetime` comparison and day iteration act. -/
def toOrdinal (d : CalendarDate) : Nat :=
  365 * (d.year - 1) + leaps (d.year - 1) + monthDaysSum d.year (d.month - 1) + d.day

/-- `format_date_for_pesel` (pesel_generator.py, lines 46-78): 6 digits
`YYMMDD`, the month shifted by the century offset. -/
def format_date_for_pesel (date : CalendarDate) : List Nat :=
  let year := date.year
  let day := date.day
  let month :=
    if 1800 ≤ year ∧ year ≤ 1899 then date.month + 80
    else if 2000 ≤ year ∧ year ≤ 2099 then date.month + 20
    else if 2100 ≤ year ∧ year ≤ 2199 then date.month + 40
    else if 2200 ≤ year ∧ year ≤ 2299 then date.month + 60
    else date.month
  padDigits 2 (year % 100) ++ padDigits 2 month ++ padDigits 2 day

/-- `generate_pesel_for_date` (pesel_generator.py, lines 81-97): date
digits, sequential/sex digits, then the check digit appended. -/
def generate_pesel_for_date (date : CalendarDate) (sequential_number : Int)
    (is_male : Bool) : List Nat :=
  let date_str := format_date_for_pesel date
  let seq_sex_digits := generate_sequential_and_sex_digits sequential_number is_male
  let pesel_base := date_str ++ seq_sex_digits
  let check_digit := calculate_check_digit pesel_base
  pesel_base ++ [check_digit]

/-- The inner per-day loop of `generate_pesels_for_year_range`
(pesel_generator.py, lines 125-134): sequential numbers `0..9999` in
order; with a sex filter only the matching parity is emitted, without a
filter the sex is the number's own parity. -/
def pesselsForDay (current_date : CalendarDate) (is_male : Option Bool) :
    List (List Nat) :=
  match is_male with
  | some m =>
      ((List.range 10000).filter
          (fun seq_num => (m && seq_num % 2 == 1) || (!m && seq_num % 2 == 0))).map
        (fun seq_num : Nat => generate_pesel_for_date current_date (seq_num : Int) m)
  | none =>
      (List.range 10000).map
        (fun seq_num : Nat =>
          generate_pesel_for_date current_date (seq_num : Int) (seq_num % 2 == 1))

/-- The days visited by the `while current_date <= end_date` loop: `n`
consecutive days starting from `d`. -/
def daysFrom (d : CalendarDate) : Nat → List CalendarDate
  | 0 => []
  | n + 1 => d :: daysFrom (nextDay d) n

/-- The day sequence of `generate_pesels_for_year_range`: every day from
January 1 of `start_year` to December 31 of `end_year` inclusive. -/
def rangeDays (start_year end_year : Nat) : List CalendarDate :=
  let current_date : CalendarDate := ⟨start_year, 1, 1⟩
  let end_date : CalendarDate := ⟨end_year, 12, 31⟩
  daysFrom current_date (toOrdinal end_date + 1 - toOrdinal current_date)

/-- `generate_pesels_for_year_range` (pesel_generator.py, lines 100-151):
for every day of the range, in date order, the per-day identifiers in
sequential-number order. Progress printing does not touch the result. -/
def generate_pesels_for_year_range (start_year end_year : Nat)
    (is_male : Option Bool) : List (List Nat) :=
  (rangeDays start_year end_year).flatMap (fun d => pesselsForDay d is_male)

/-- `main`'s year validation and dispatch (pesel_generator.py, lines
173-194): reject `start_year < 1800` or `end_year > 2299`, then
`start_year > end_year`, otherwise run the generator. -/
def main_result (start_year end_year : Int) (is_male : Option Bool) :
    Except String (List (List Nat)) :=
  if start_year < 1800 ∨ end_year > 2299 then
    Except.error "Error: Year range must be between 1800 and 2299"
  else if start_year > end_year then
    Except.error "Error: Start year must be less than or equal to end year"
  else
    Except.ok (generate_pesels_for_year_range start_year.toNat end_year.toNat is_male)

/-- The value of the 4-digit sequential/sex block (digits 7-10) of an
identifier. -/
def seqBlockVal (p : List Nat) : Nat :=
  digitsVal ((p.drop 6).take 4)

/-- The month-offset table as written in the specification (section 4.1),
for comparison with `format_date_for_pesel`. -/
def specMonthOffset (year : Nat) : Nat :=
  if 1800 ≤ year ∧ year ≤ 1899 then 80
  else if 1900 ≤ year ∧ year ≤ 1999 then 0
  else if 2000 ≤ year ∧ year ≤ 2099 then 20
  else if 2100 ≤ year ∧ year ≤ 2199 then 40
  else if 2200 ≤ year ∧ year ≤ 2299 then 60
  else 0

/-! ### Basic facts about digit formatting -/

theorem digits_len_le_of_lt {w n : Nat} (h : n < 10 ^ w) :
    (Nat.digits 10 n).length ≤ w := by
  rcases Nat.eq_zero_or_pos n with rfl | hn
  · simp
  · rw [Nat.digits_len 10 n (by norm_num) hn.ne']
    have hlog := Nat.log_lt_of_lt_pow hn.ne' h
    omega

theorem padDigits_length {w n : Nat} (h : n < 10 ^ w) :
    (padDigits w n).length = w := by
  have hle : (Nat.digits 10 n).length ≤ w := digits_len_le_of_lt h
  simp [padDigits]
  omega

theorem padDigits_lt (w n : Nat) : ∀ x ∈ padDigits w n, x < 10 := by
  intro x hx
  simp only [padDigits, List.mem_append, List.mem_replicate, List.mem_reverse] at hx
  rcases hx with ⟨-, rfl⟩ | hx
  · norm_num
  · exact Nat.digits_lt_base (by norm_num) hx

theorem ofDigits_replicate_zero (b : Nat) : ∀ k, Nat.ofDigits b (List.replicate k 0) = 0
  | 0 => rfl
  | k + 1 => by
      rw [List.replicate_succ, Nat.ofDigits_cons, ofDigits_replicate_zero b k]
      simp

theorem digitsVal_padDigits (w n : Nat) :
    digitsVal (padDigits w n) = n := by
  unfold digitsVal padDigits
  rw [List.reverse_append, List.reverse_reverse, List.reverse_replicate,
    Nat.ofDigits_append, Nat.ofDigits_digits, ofDigits_replicate_zero]
  simp

/-! ### The sequential/sex adjustment -/

theorem adjustedSeq_bounds (s : Int) (b : Bool) :
    0 ≤ adjustedSeq s b ∧ adjustedSeq s b ≤ 9999 ∧
      adjustedSeq s b % 2 = (if b then 1 else 0) := by
  unfold adjustedSeq
  have h0 : (0 : Int) ≤ max 0 (min 9999 s) := le_max_left _ _
  have h1 : max 0 (min 9999 s) ≤ 9999 := max_le (by norm_num) (min_le_left _ _)
  set c := max 0 (min 9999 s) with hc
  rcases Int.emod_two_eq c with h2 | h2 <;> cases b <;> simp [h2] <;> omega

theorem adjustedSeq_no_adjust (s : Nat) (hs : s ≤ 9999) (b : Bool)
    (hb : b = (s % 2 == 1)) : adjustedSeq (s : Int) b = s := by
  subst hb
  unfold adjustedSeq
  have hmin : min (9999 : Int) (s : Int) = s := min_eq_right (by exact_mod_cast hs)
  have hmax : max (0 : Int) (s : Int) = s := max_eq_right (Int.natCast_nonneg s)
  rw [hmin, hmax]
  by_cases h : s % 2 = 1
  · have h' : (s : Int) % 2 = 1 := by omega
    simp [h, h']
  · have h0 : s % 2 = 0 := by omega
    have h' : (s : Int) % 2 = 0 := by omega
    simp [h0, h']

/-! ### Shape of the encoded identifier -/

theorem daysInMonth_le_31 (y m : Nat) : daysInMonth y m ≤ 31 := by
  unfold daysInMonth
  split_ifs <;> norm_num

theorem daysInMonth_pos (y m : Nat) : 1 ≤ daysInMonth y m := by
  unfold daysInMonth
  split_ifs <;> norm_num

theorem pad2_length {n : Nat} (h : n < 100) : (padDigits 2 n).length = 2 :=
  padDigits_length (by
    have h2 : (10 : Nat) ^ 2 = 100 := by norm_num
    omega)

theorem pad4_length {n : Nat} (h : n < 10000) : (padDigits 4 n).length = 4 :=
  padDigits_length (by
    have h2 : (10 : Nat) ^ 4 = 10000 := by norm_num
    omega)

theorem digitsVal_pad4 (n : Nat) : digitsVal (padDigits 4 n) = n :=
  digitsVal_padDigits 4 n

theorem format_date_for_pesel_length (d : CalendarDate) (h : ValidDate d) :
    (format_date_for_pesel d).length = 6 := by
  obtain ⟨-, -, hm12, -, hday⟩ := h
  have hd : d.day < 100 :=
    lt_of_le_of_lt (hday.trans (daysInMonth_le_31 _ _)) (by norm_num)
  have hy : d.year % 100 < 100 := Nat.mod_lt _ (by norm_num)
  unfold format_date_for_pesel
  dsimp only
  split_ifs <;>
    simp [List.length_append, pad2_length hy, pad2_length hd,
      pad2_length (show d.month + 80 < 100 by omega),
      pad2_length (show d.month + 20 < 100 by omega),
      pad2_length (show d.month + 40 < 100 by omega),
      pad2_length (show d.month + 60 < 100 by omega),
      pad2_length (show d.month < 100 by omega)]

theorem adjustedSeq_toNat_lt (s : Int) (b : Bool) :
    (adjustedSeq s b).toNat < 10000 := by
  have h := adjustedSeq_bounds s b
  omega

theorem generate_sequential_and_sex_digits_length (s : Int) (b : Bool) :
    (generate_sequential_and_sex_digits s b).length = 4 := by
  unfold generate_sequential_and_sex_digits
  rw [padDigits_length]
  have := adjustedSeq_toNat_lt s b
  norm_num
  omega

theorem generate_pesel_for_date_take_10 (d : CalendarDate) (s : Int) (b : Bool)
    (h : ValidDate d) :
    (generate_pesel_for_date d s b).take 10 =
      format_date_for_pesel d ++ generate_sequential_and_sex_digits s b := by
  unfold generate_pesel_for_date
  rw [List.take_append_of_le_length]
  · rw [List.take_of_length_le]
    rw [List.length_append, format_date_for_pesel_length d h,
      generate_sequential_and_sex_digits_length]
  · rw [List.length_append, format_date_for_pesel_length d h,
      generate_sequential_and_sex_digits_length]

theorem generate_pesel_for_date_length (d : CalendarDate) (s : Int) (b : Bool)
    (h : ValidDate d) : (generate_pesel_for_date d s b).length = 11 := by
  unfold generate_pesel_for_date
  simp [List.length_append, format_date_for_pesel_length d h,
    generate_sequential_and_sex_digits_length]

theorem seqBlockVal_generate (d : CalendarDate) (s : Int) (b : Bool)
    (h : ValidDate d) :
    seqBlockVal (generate_pesel_for_date d s b) = (adjustedSeq s b).toNat := by
  unfold seqBlockVal generate_pesel_for_date
  rw [List.append_assoc]
  have h6 : (format_date_for_pesel d).length = 6 := format_date_for_pesel_length d h
  rw [show (6 : Nat) = (format_date_for_pesel d).length from h6.symm,
    List.drop_left]
  unfold generate_sequential_and_sex_digits
  have h4 : (padDigits 4 (adjustedSeq s b).toNat).length = 4 :=
    pad4_length (adjustedSeq_toNat_lt s b)
  rw [List.take_append_of_le_length (le_of_eq h4.symm),
    List.take_of_length_le (le_of_eq h4)]
  exact digitsVal_pad4 _

theorem calculate_check_digit_lt (L : List Nat) : calculate_check_digit L < 10 := by
  unfold calculate_check_digit
  exact Nat.mod_lt _ (by norm_num)

theorem format_date_for_pesel_decomp (d : CalendarDate) :
    ∃ M, format_date_for_pesel d =
      padDigits 2 (d.year % 100) ++ padDigits 2 M ++ padDigits 2 d.day :=
  ⟨_, rfl⟩

theorem format_digits_lt (d : CalendarDate) :
    ∀ x ∈ format_date_for_pesel d, x < 10 := by
  obtain ⟨M, hM⟩ := format_date_for_pesel_decomp d
  intro x hx
  rw [hM] at hx
  simp only [List.mem_append] at hx
  rcases hx with (hx | hx) | hx <;> exact padDigits_lt _ _ x hx

theorem generate_digits_lt (d : CalendarDate) (s : Int) (b : Bool) :
    ∀ x ∈ generate_pesel_for_date d s b, x < 10 := by
  unfold generate_pesel_for_date generate_sequential_and_sex_digits
  dsimp only
  intro x hx
  simp only [List.mem_append, List.mem_singleton] at hx
  rcases hx with (hx | hx) | hx
  · exact format_digits_lt d x hx
  · exact padDigits_lt _ _ x hx
  · rw [hx]; exact calculate_check_digit_lt _

/-- Claim C1: for every valid (date, seq, sex), the encoder returns exactly 11
decimal digits, and re-applying the weighted checksum formula
(`calculate_check_digit`) to the first 10 digits reproduces the 11th digit. -/
theorem C1_encode_checksum (d : CalendarDate) (s : Int) (b : Bool)
    (h : ValidDate d) :
    (generate_pesel_for_date d s b).length = 11 ∧
    (∀ x ∈ generate_pesel_for_date d s b, x < 10) ∧
    (generate_pesel_for_date d s b).getLast? =
      some (calculate_check_digit ((generate_pesel_for_date d s b).take 10)) := by
  refine ⟨generate_pesel_for_date_length d s b h, generate_digits_lt d s b, ?_⟩
  rw [generate_pesel_for_date_take_10 d s b h]
  unfold generate_pesel_for_date
  simp

theorem C1_witness :
    (generate_pesel_for_date ⟨1999, 6, 15⟩ 42 false).length = 11 ∧
    (∀ x ∈ generate_pesel_for_date ⟨1999, 6, 15⟩ 42 false, x < 10) ∧
    (generate_pesel_for_date ⟨1999, 6, 15⟩ 42 false).getLast? =
      some (calculate_check_digit
        ((generate_pesel_for_date ⟨1999, 6, 15⟩ 42 false).take 10)) :=
  C1_encode_checksum ⟨1999, 6, 15⟩ 42 false (by decide)

/-- Claim C2: for every valid (date, seq, sex), the numeric value of the 4-digit
sequential/sex block of the produced identifier is odd exactly when the sex is
male and even exactly when it is female, including every adjusted case. -/
theorem C2_sex_parity (d : CalendarDate) (s : Int) (b : Bool) (h : ValidDate d) :
    seqBlockVal (generate_pesel_for_date d s b) % 2 = (if b then 1 else 0) := by
  rw [seqBlockVal_generate d s b h]
  have hb := adjustedSeq_bounds s b
  cases b <;> simp only [Bool.false_eq_true, if_true, if_false] at hb ⊢ <;> omega

theorem C2_witness :
    seqBlockVal (generate_pesel_for_date ⟨2000, 2, 29⟩ 6 true) % 2 = 1 := by
  have h := C2_sex_parity ⟨2000, 2, 29⟩ 6 true (by decide)
  simpa using h

/-- Claim C4: for every integer seq and either sex, the encoder clamps seq into
`[0, 9999]` and then adjusts by +1 (male) or -1 (female) when the parity does
not match; the result always stays in `[0, 9999]`, and the boundary case
seq = 9999 requested as female yields 9998. -/
theorem C4_clamp_and_adjust (s : Int) (b : Bool) :
    (0 ≤ adjustedSeq s b ∧ adjustedSeq s b ≤ 9999) ∧
    adjustedSeq s b =
      (let c := max 0 (min 9999 s)
       if b = (c % 2 == 1) then c else if b then c + 1 else c - 1) ∧
    adjustedSeq 9999 false = 9998 ∧
    generate_sequential_and_sex_digits 9999 false = [9, 9, 9, 8] := by
  have h9998 : adjustedSeq 9999 false = 9998 := by decide
  refine ⟨⟨(adjustedSeq_bounds s b).1, (adjustedSeq_bounds s b).2.1⟩, ?_, h9998, ?_⟩
  · unfold adjustedSeq
    dsimp only
    rcases Int.emod_two_eq (max 0 (min 9999 s)) with h2 | h2 <;>
      cases b <;> simp [h2]
  · unfold generate_sequential_and_sex_digits
    rw [h9998, show (9998 : Int).toNat = 9998 from rfl]
    norm_num [padDigits]

theorem month_digits_concrete (d : CalendarDate) (s : Int) (b : Bool)
    (F : List Nat) (hF : format_date_for_pesel d = F)
    (h6 : F.length = 6) :
    ((generate_pesel_for_date d s b).drop 2).take 2 = (F.drop 2).take 2 := by
  unfold generate_pesel_for_date
  rw [hF, List.append_assoc, List.drop_append_eq_append_drop,
    List.take_append_eq_append_take]
  simp [h6]

/-- Claim C3 (amended): the date block is `YY = year mod 100`, zero-padded day,
and the month plus the century offset of the specification's table (+80 for
1800-1899, +0 for 1900-1999, +20 for 2000-2099, +40 for 2100-2199, +60 for
2200-2299); in particular the encoder writes month `81` for 1800-01-01, `01`
for 1900-01-01, `21` for 2000-01-01 (not `01` as the claim stated: the +20
offset applies to the whole 2000-2099 range), `21` for 2020-01-01 and `41`
for 2100-01-01. -/
theorem C3_century_month_encoding :
    (∀ d : CalendarDate, ValidDate d → 1800 ≤ d.year → d.year ≤ 2299 →
      format_date_for_pesel d =
        padDigits 2 (d.year % 100) ++ padDigits 2 (d.month + specMonthOffset d.year) ++
          padDigits 2 d.day) ∧
    (∀ (s : Int) (b : Bool),
      ((generate_pesel_for_date ⟨1800, 1, 1⟩ s b).drop 2).take 2 = [8, 1] ∧
      ((generate_pesel_for_date ⟨1900, 1, 1⟩ s b).drop 2).take 2 = [0, 1] ∧
      ((generate_pesel_for_date ⟨2000, 1, 1⟩ s b).drop 2).take 2 = [2, 1] ∧
      ((generate_pesel_for_date ⟨2020, 1, 1⟩ s b).drop 2).take 2 = [2, 1] ∧
      ((generate_pesel_for_date ⟨2100, 1, 1⟩ s b).drop 2).take 2 = [4, 1]) := by
  constructor
  · intro d _ _ _
    unfold format_date_for_pesel specMonthOffset
    dsimp only
    split_ifs <;> first | rfl | (exfalso; omega)
  · intro s b
    refine ⟨?_, ?_, ?_, ?_, ?_⟩
    · rw [month_digits_concrete ⟨1800, 1, 1⟩ s b [0, 0, 8, 1, 0, 1]
        (by norm_num [format_date_for_pesel, padDigits, List.replicate]) (by norm_num)]
      rfl
    · rw [month_digits_concrete ⟨1900, 1, 1⟩ s b [0, 0, 0, 1, 0, 1]
        (by norm_num [format_date_for_pesel, padDigits, List.replicate]) (by norm_num)]
      rfl
    · rw [month_digits_concrete ⟨2000, 1, 1⟩ s b [0, 0, 2, 1, 0, 1]
        (by norm_num [format_date_for_pesel, padDigits, List.replicate]) (by norm_num)]
      rfl
    · rw [month_digits_concrete ⟨2020, 1, 1⟩ s b [2, 0, 2, 1, 0, 1]
        (by norm_num [format_date_for_pesel, padDigits, List.replicate]) (by norm_num)]
      rfl
    · rw [month_digits_concrete ⟨2100, 1, 1⟩ s b [0, 0, 4, 1, 0, 1]
        (by norm_num [format_date_for_pesel, padDigits, List.replicate]) (by norm_num)]
      rfl

theorem C3_witness :
    format_date_for_pesel ⟨2020, 1, 1⟩ =
      padDigits 2 (2020 % 100) ++ padDigits 2 (1 + specMonthOffset 2020) ++
        padDigits 2 1 :=
  C3_century_month_encoding.1 ⟨2020, 1, 1⟩ (by decide) (by norm_num) (by norm_num)

/-- Counterexample to claim C3 as stated: on 2000-01-01 the encoder writes the
month digits `21`, not `01` — the +20 century offset applies from year 2000
on, so the identifier starts `0021...`, never `0001...`. -/
theorem C3_counterexample :
    ((generate_pesel_for_date ⟨2000, 1, 1⟩ 0 true).drop 2).take 2 = [2, 1] ∧
    ((generate_pesel_for_date ⟨2000, 1, 1⟩ 0 true).drop 2).take 2 ≠ [0, 1] := by
  have h := month_digits_concrete ⟨2000, 1, 1⟩ 0 true [0, 0, 2, 1, 0, 1]
    (by norm_num [format_date_for_pesel, padDigits, List.replicate]) (by norm_num)
  rw [h]
  norm_num

/-- Claim C7: for every (startYear, endYear) with startYear > endYear, or
startYear < 1800, or endYear > 2299, `main` fails with its invalid-year-range
error before any enumeration begins, so no identifier is produced. -/
theorem C7_invalid_year_range (sy ey : Int) (f : Option Bool)
    (h : sy > ey ∨ sy < 1800 ∨ ey > 2299) :
    ∃ msg, main_result sy ey f = Except.error msg := by
  unfold main_result
  split_ifs with h1 h2
  · exact ⟨_, rfl⟩
  · exact ⟨_, rfl⟩
  · exfalso
    push_neg at h1 h2
    rcases h with h | h | h <;> omega

theorem C7_witness : ∃ msg, main_result 2000 1999 none = Except.error msg :=
  C7_invalid_year_range 2000 1999 none (Or.inl (by norm_num))

/-- Claim C8: the range enumerator is deterministic across runs: two
invocations of `generate_pesels_for_year_range` with identical arguments
produce identical output sequences, element for element. The embedded
function is pure, and its Python original's only side effect is the progress
bar, which does not feed back into the returned list. -/
theorem C8_deterministic (sy1 ey1 sy2 ey2 : Nat) (f1 f2 : Option Bool)
    (h1 : sy1 = sy2) (h2 : ey1 = ey2) (h3 : f1 = f2) :
    generate_pesels_for_year_range sy1 ey1 f1 =
      generate_pesels_for_year_range sy2 ey2 f2 := by
  rw [h1, h2, h3]

theorem C8_witness :
    generate_pesels_for_year_range 1850 1850 (some true) =
      generate_pesels_for_year_range 1850 1850 (some true) :=
  C8_deterministic 1850 1850 1850 1850 (some true) (some true) rfl rfl rfl

/-! ### Per-day enumeration -/

/-- The entries of a list at even positions (0th, 2nd, ...). -/
def evenEntries {α : Type} : List α → List α
  | [] => []
  | [a] => [a]
  | a :: _ :: l => a :: evenEntries l

/-- The entries of a list at odd positions (1st, 3rd, ...). -/
def oddEntries {α : Type} : List α → List α
  | [] => []
  | [_] => []
  | _ :: b :: l => b :: oddEntries l

theorem oddEntries_append {α : Type} :
    ∀ A B : List α, A.length % 2 = 0 →
      oddEntries (A ++ B) = oddEntries A ++ oddEntries B
  | [], _, _ => rfl
  | [_], _, h => by simp at h
  | a :: b :: t, B, h => by
      have ht : t.length % 2 = 0 := by
        simp only [List.length_cons] at h
        omega
      show b :: oddEntries (t ++ B) = b :: (oddEntries t ++ oddEntries B)
      rw [oddEntries_append t B ht]

theorem evenEntries_append {α : Type} :
    ∀ A B : List α, A.length % 2 = 0 →
      evenEntries (A ++ B) = evenEntries A ++ evenEntries B
  | [], _, _ => rfl
  | [_], _, h => by simp at h
  | a :: b :: t, B, h => by
      have ht : t.length % 2 = 0 := by
        simp only [List.length_cons] at h
        omega
      show a :: evenEntries (t ++ B) = a :: (evenEntries t ++ evenEntries B)
      rw [evenEntries_append t B ht]

theorem oddEntries_range_map {α : Type} (f : Nat → Bool → α) :
    ∀ n, oddEntries ((List.range (2 * n)).map (fun s => f s (s % 2 == 1))) =
      ((List.range (2 * n)).filter (fun s => s % 2 == 1)).map (fun s => f s true)
  | 0 => rfl
  | n + 1 => by
      have e : 2 * (n + 1) = 2 * n + 1 + 1 := by ring
      have h0 : (2 * n) % 2 = 0 := by omega
      have h1 : (2 * n + 1) % 2 = 1 := by omega
      rw [e, List.range_succ, List.range_succ, List.append_assoc]
      rw [List.map_append, List.filter_append, List.map_append]
      rw [oddEntries_append _ _ (by simp)]
      rw [oddEntries_range_map f n]
      simp [oddEntries, h0, h1]

theorem evenEntries_range_map {α : Type} (f : Nat → Bool → α) :
    ∀ n, evenEntries ((List.range (2 * n)).map (fun s => f s (s % 2 == 1))) =
      ((List.range (2 * n)).filter (fun s => s % 2 == 0)).map (fun s => f s false)
  | 0 => rfl
  | n + 1 => by
      have e : 2 * (n + 1) = 2 * n + 1 + 1 := by ring
      have h0 : (2 * n) % 2 = 0 := by omega
      have h1 : (2 * n + 1) % 2 = 1 := by omega
      rw [e, List.range_succ, List.range_succ, List.append_assoc]
      rw [List.map_append, List.filter_append, List.map_append]
      rw [evenEntries_append _ _ (by simp)]
      rw [evenEntries_range_map f n]
      simp [evenEntries, h0, h1]

theorem countP_odd_range : ∀ n,
    List.countP (fun s => s % 2 == 1) (List.range (2 * n)) = n
  | 0 => rfl
  | n + 1 => by
      have e : 2 * (n + 1) = 2 * n + 1 + 1 := by ring
      have h0 : (2 * n) % 2 = 0 := by omega
      have h1 : (2 * n + 1) % 2 = 1 := by omega
      rw [e, List.range_succ, List.range_succ, List.countP_append,
        List.countP_append, countP_odd_range n]
      simp [List.countP_cons, h0, h1]

theorem countP_even_range : ∀ n,
    List.countP (fun s => s % 2 == 0) (List.range (2 * n)) = n
  | 0 => rfl
  | n + 1 => by
      have e : 2 * (n + 1) = 2 * n + 1 + 1 := by ring
      have h0 : (2 * n) % 2 = 0 := by omega
      have h1 : (2 * n + 1) % 2 = 1 := by omega
      rw [e, List.range_succ, List.range_succ, List.countP_append,
        List.countP_append, countP_even_range n]
      simp [List.countP_cons, h0, h1]

theorem seqBlockVal_no_adjust (d : CalendarDate) (h : ValidDate d)
    (s : Nat) (hs : s ≤ 9999) (b : Bool) (hb : b = (s % 2 == 1)) :
    seqBlockVal (generate_pesel_for_date d (s : Int) b) = s := by
  rw [seqBlockVal_generate d (s : Int) b h, adjustedSeq_no_adjust s hs b hb]
  exact Int.toNat_natCast s

theorem pesselsForDay_none_map_block (d : CalendarDate) (h : ValidDate d) :
    (pesselsForDay d none).map seqBlockVal = List.range 10000 := by
  unfold pesselsForDay
  rw [List.map_map]
  have hcongr : ∀ s ∈ List.range 10000,
      (seqBlockVal ∘ fun seq_num : Nat =>
        generate_pesel_for_date d (seq_num : Int) (seq_num % 2 == 1)) s = id s := by
    intro s hs
    have hs' : s ≤ 9999 := by
      have := List.mem_range.mp hs
      omega
    simp only [Function.comp_apply, id_eq]
    exact seqBlockVal_no_adjust d h s hs' _ rfl
  rw [List.map_congr_left hcongr, List.map_id]

theorem mem_filter_parity {m : Bool} {s : Nat}
    (hs : ((m && s % 2 == 1) || (!m && s % 2 == 0)) = true) :
    m = (s % 2 == 1) := by
  rcases Nat.mod_two_eq_zero_or_one s with h | h <;> cases m <;> simp [h] at hs ⊢

theorem pesselsForDay_some_map_block (d : CalendarDate) (h : ValidDate d)
    (m : Bool) :
    (pesselsForDay d (some m)).map seqBlockVal =
      (List.range 10000).filter
        (fun s => (m && s % 2 == 1) || (!m && s % 2 == 0)) := by
  unfold pesselsForDay
  rw [List.map_map]
  have hcongr : ∀ s ∈ (List.range 10000).filter
      (fun s => (m && s % 2 == 1) || (!m && s % 2 == 0)),
      (seqBlockVal ∘ fun seq_num : Nat =>
        generate_pesel_for_date d (seq_num : Int) m) s = id s := by
    intro s hs
    rw [List.mem_filter] at hs
    have hs' : s ≤ 9999 := by
      have := List.mem_range.mp hs.1
      omega
    simp only [Function.comp_apply, id_eq]
    exact seqBlockVal_no_adjust d h s hs' m (mem_filter_parity hs.2)
  rw [List.map_congr_left hcongr, List.map_id]

theorem pesselsForDay_none_length (d : CalendarDate) :
    (pesselsForDay d none).length = 10000 := by
  unfold pesselsForDay
  simp

/-- Claim C5: for every day processed by the range enumerator, the unfiltered
per-day loop emits exactly 10,000 identifiers (5,000 with odd seq/sex block,
5,000 with even), pairwise distinct; with the male filter it emits exactly
5,000 identifiers, all with odd seq/sex block. -/
theorem C5_per_day_counts (d : CalendarDate) (h : ValidDate d) :
    (pesselsForDay d none).length = 10000 ∧
    List.countP (fun p => seqBlockVal p % 2 == 1) (pesselsForDay d none) = 5000 ∧
    List.countP (fun p => seqBlockVal p % 2 == 0) (pesselsForDay d none) = 5000 ∧
    (pesselsForDay d none).Nodup ∧
    (pesselsForDay d (some true)).length = 5000 ∧
    ∀ p ∈ pesselsForDay d (some true), seqBlockVal p % 2 = 1 := by
  have hmap := pesselsForDay_none_map_block d h
  refine ⟨pesselsForDay_none_length d, ?_, ?_, ?_, ?_, ?_⟩
  · have := List.countP_map (fun v => v % 2 == 1) seqBlockVal (pesselsForDay d none)
    rw [hmap] at this
    rw [show (fun p => seqBlockVal p % 2 == 1) =
      ((fun v => v % 2 == 1) ∘ seqBlockVal) from rfl, ← this,
      show (10000 : Nat) = 2 * 5000 from rfl, countP_odd_range]
  · have := List.countP_map (fun v => v % 2 == 0) seqBlockVal (pesselsForDay d none)
    rw [hmap] at this
    rw [show (fun p => seqBlockVal p % 2 == 0) =
      ((fun v => v % 2 == 0) ∘ seqBlockVal) from rfl, ← this,
      show (10000 : Nat) = 2 * 5000 from rfl, countP_even_range]
  · unfold pesselsForDay
    apply List.Nodup.map_on _ (List.nodup_range _)
    intro x hx y hy hxy
    have hx' : x ≤ 9999 := by have := List.mem_range.mp hx; omega
    have hy' : y ≤ 9999 := by have := List.mem_range.mp hy; omega
    have hvx := seqBlockVal_no_adjust d h x hx' _ rfl
    have hvy := seqBlockVal_no_adjust d h y hy' _ rfl
    rw [← hvx, ← hvy, hxy]
  · unfold pesselsForDay
    rw [List.length_map, ← List.countP_eq_length_filter,
      show (fun s : Nat => (true && s % 2 == 1) || (!true && s % 2 == 0)) =
        (fun s : Nat => s % 2 == 1) from by funext s; simp,
      show (10000 : Nat) = 2 * 5000 from rfl, countP_odd_range]
  · intro p hp
    unfold pesselsForDay at hp
    obtain ⟨s, -, rfl⟩ := List.mem_map.mp hp
    rw [seqBlockVal_generate d _ _ h]
    have hb := adjustedSeq_bounds (s : Int) true
    simp only [if_true] at hb
    omega

theorem C5_witness :
    (pesselsForDay ⟨1999, 1, 1⟩ none).length = 10000 ∧
    List.countP (fun p => seqBlockVal p % 2 == 1)
      (pesselsForDay ⟨1999, 1, 1⟩ none) = 5000 ∧
    List.countP (fun p => seqBlockVal p % 2 == 0)
      (pesselsForDay ⟨1999, 1, 1⟩ none) = 5000 ∧
    (pesselsForDay ⟨1999, 1, 1⟩ none).Nodup ∧
    (pesselsForDay ⟨1999, 1, 1⟩ (some true)).length = 5000 ∧
    ∀ p ∈ pesselsForDay ⟨1999, 1, 1⟩ (some true), seqBlockVal p % 2 = 1 :=
  C5_per_day_counts ⟨1999, 1, 1⟩ (by decide)

theorem pesselsForDay_male (d : CalendarDate) :
    pesselsForDay d (some true) = oddEntries (pesselsForDay d none) := by
  unfold pesselsForDay
  dsimp only
  rw [show (10000 : Nat) = 2 * 5000 from rfl,
    oddEntries_range_map (fun s b => generate_pesel_for_date d (s : Int) b) 5000,
    show (fun s : Nat => (true && s % 2 == 1) || (!true && s % 2 == 0)) =
      (fun s : Nat => s % 2 == 1) from by funext s; simp]

theorem pesselsForDay_female (d : CalendarDate) :
    pesselsForDay d (some false) = evenEntries (pesselsForDay d none) := by
  unfold pesselsForDay
  dsimp only
  rw [show (10000 : Nat) = 2 * 5000 from rfl,
    evenEntries_range_map (fun s b => generate_pesel_for_date d (s : Int) b) 5000,
    show (fun s : Nat => (false && s % 2 == 1) || (!false && s % 2 == 0)) =
      (fun s : Nat => s % 2 == 0) from by funext s; simp]

/-- Claim C10: for every year range, the male-filtered enumeration equals the
subsequence of the unfiltered output at the odd positions (the odd sequential
numbers), and the female-filtered enumeration equals the subsequence at the
even positions: when the filter matches a number's own parity no adjustment
occurs, so both runs encode identical (date, seq, sex) triples. -/
theorem C10_filtered_is_subsequence (sy ey : Nat) :
    generate_pesels_for_year_range sy ey (some true) =
      oddEntries (generate_pesels_for_year_range sy ey none) ∧
    generate_pesels_for_year_range sy ey (some false) =
      evenEntries (generate_pesels_for_year_range sy ey none) := by
  unfold generate_pesels_for_year_range
  induction rangeDays sy ey with
  | nil => exact ⟨rfl, rfl⟩
  | cons d L ih =>
      rw [List.flatMap_cons, List.flatMap_cons, List.flatMap_cons,
        oddEntries_append _ _ (by rw [pesselsForDay_none_length]),
        evenEntries_append _ _ (by rw [pesselsForDay_none_length]),
        pesselsForDay_male d, pesselsForDay_female d, ih.1, ih.2]
      exact ⟨rfl, rfl⟩

/-! ### Calendar arithmetic: the successor day advances the ordinal by one -/

theorem monthDaysSum_12 (y : Nat) :
    monthDaysSum y 12 = if isLeapYear y then 366 else 365 := by
  have h2 : daysInMonth y 2 = if isLeapYear y then 29 else 28 := rfl
  have e : monthDaysSum y 12 =
      0 + 31 + daysInMonth y 2 + 31 + 30 + 31 + 30 + 31 + 31 + 30 + 31 + 30 + 31 := rfl
  rw [e, h2]
  split_ifs <;> norm_num

theorem leaps_succ (y : Nat) :
    leaps (y + 1) = leaps y + (if isLeapYear (y + 1) then 1 else 0) := by
  have hiff : isLeapYear (y + 1) = true ↔
      (((y + 1) % 4 = 0 ∧ (y + 1) % 100 ≠ 0) ∨ (y + 1) % 400 = 0) := by
    simp [isLeapYear]
  unfold leaps
  by_cases h : isLeapYear (y + 1) = true
  · rw [if_pos h]
    rcases hiff.mp h with ⟨h4, h100⟩ | h400 <;> omega
  · rw [if_neg h]
    have hnot : ¬(((y + 1) % 4 = 0 ∧ (y + 1) % 100 ≠ 0) ∨ (y + 1) % 400 = 0) :=
      fun c => h (hiff.mpr c)
    push_neg at hnot
    clear h hiff
    by_cases h4 : (y + 1) % 4 = 0
    · have h100 : (y + 1) % 100 = 0 := hnot.1 h4
      have h400 : (y + 1) % 400 ≠ 0 := hnot.2
      omega
    · have h400 : (y + 1) % 400 ≠ 0 := hnot.2
      omega

theorem year_rollover {y : Nat} (hy : 1 ≤ y) :
    365 * y + leaps y = 365 * (y - 1) + leaps (y - 1) + monthDaysSum y 12 := by
  obtain ⟨z, rfl⟩ : ∃ z, y = z + 1 := ⟨y - 1, by omega⟩
  simp only [Nat.add_sub_cancel]
  rw [monthDaysSum_12, leaps_succ]
  split_ifs <;> omega

theorem yearOrd_mono : ∀ {a b : Nat}, a ≤ b →
    365 * a + leaps a ≤ 365 * b + leaps b := by
  intro a b hab
  induction hab with
  | refl => exact le_rfl
  | step _ ih =>
      refine ih.trans ?_
      rw [leaps_succ]
      split_ifs <;> omega

theorem monthDaysSum_le (y : Nat) {a b : Nat} (hab : a ≤ b) :
    monthDaysSum y a ≤ monthDaysSum y b := by
  induction hab with
  | refl => exact le_rfl
  | step _ ih => exact ih.trans (Nat.le_add_right _ _)

theorem nextDay_valid {d : CalendarDate} (h : ValidDate d) :
    ValidDate (nextDay d) := by
  obtain ⟨hy, hm1, hm12, hd1, hdm⟩ := h
  unfold nextDay
  split_ifs with h1 h2
  · refine ⟨hy, hm1, hm12, ?_, ?_⟩
    · show 1 ≤ d.day + 1
      omega
    · show d.day + 1 ≤ daysInMonth d.year d.month
      omega
  · refine ⟨hy, ?_, ?_, ?_, ?_⟩
    · show 1 ≤ d.month + 1
      omega
    · show d.month + 1 ≤ 12
      omega
    · show (1 : Nat) ≤ 1
      exact le_rfl
    · show 1 ≤ daysInMonth d.year (d.month + 1)
      exact daysInMonth_pos _ _
  · refine ⟨?_, ?_, ?_, ?_, ?_⟩
    · show 1 ≤ d.year + 1
      omega
    · show (1 : Nat) ≤ 1
      exact le_rfl
    · show (1 : Nat) ≤ 12
      norm_num
    · show (1 : Nat) ≤ 1
      exact le_rfl
    · show 1 ≤ daysInMonth (d.year + 1) 1
      exact daysInMonth_pos _ _

theorem nextDay_toOrdinal {d : CalendarDate} (h : ValidDate d) :
    toOrdinal (nextDay d) = toOrdinal d + 1 := by
  obtain ⟨hy, hm1, hm12, hd1, hdm⟩ := h
  unfold nextDay
  split_ifs with h1 h2
  · unfold toOrdinal
    dsimp only
    omega
  · have hday : d.day = daysInMonth d.year d.month := by omega
    unfold toOrdinal
    dsimp only
    have hm : d.month - 1 + 1 = d.month := by omega
    have e : monthDaysSum d.year (d.month - 1 + 1) =
        monthDaysSum d.year (d.month - 1) + daysInMonth d.year (d.month - 1 + 1) := rfl
    rw [hm] at e
    rw [show d.month + 1 - 1 = d.month - 1 + 1 by omega, hm, e]
    omega
  · have hm : d.month = 12 := by omega
    have hdim : daysInMonth d.year 12 = 31 := rfl
    have hday : d.day = 31 := by
      rw [hm] at hdm h1
      omega
    unfold toOrdinal
    dsimp only
    rw [hm, hday]
    simp only [Nat.add_sub_cancel, show (12 : Nat) - 1 = 11 from rfl,
      show (1 : Nat) - 1 = 0 from rfl]
    have hroll := year_rollover hy
    have e : monthDaysSum d.year 12 =
        monthDaysSum d.year 11 + daysInMonth d.year 12 := rfl
    rw [hdim] at e
    have e0 : monthDaysSum (d.year + 1) 0 = 0 := rfl
    omega

/-! ### The day ordinal is injective on valid dates -/

theorem dayOfYear_le (d : CalendarDate) (h : ValidDate d) :
    monthDaysSum d.year (d.month - 1) + d.day ≤ monthDaysSum d.year d.month := by
  obtain ⟨hy, hm1, hm12, hd1, hdm⟩ := h
  have hm : d.month - 1 + 1 = d.month := by omega
  have e : monthDaysSum d.year (d.month - 1 + 1) =
      monthDaysSum d.year (d.month - 1) + daysInMonth d.year (d.month - 1 + 1) := rfl
  rw [hm] at e
  omega

theorem dayOfYear_le_year (d : CalendarDate) (h : ValidDate d) :
    monthDaysSum d.year (d.month - 1) + d.day ≤ monthDaysSum d.year 12 :=
  (dayOfYear_le d h).trans (monthDaysSum_le _ h.2.2.1)

theorem toOrdinal_lt_of_year_lt {d1 d2 : CalendarDate}
    (h1 : ValidDate d1) (h2 : ValidDate d2) (hlt : d1.year < d2.year) :
    toOrdinal d1 < toOrdinal d2 := by
  have b1 := dayOfYear_le_year d1 h1
  have b2 : 1 ≤ d2.day := h2.2.2.2.1
  have r1 := year_rollover h1.1
  have mono : 365 * d1.year + leaps d1.year ≤
      365 * (d2.year - 1) + leaps (d2.year - 1) := by
    have := yearOrd_mono (show d1.year ≤ d2.year - 1 by omega)
    omega
  unfold toOrdinal
  omega

theorem toOrdinal_inj {d1 d2 : CalendarDate}
    (h1 : ValidDate d1) (h2 : ValidDate d2)
    (heq : toOrdinal d1 = toOrdinal d2) : d1 = d2 := by
  have hy : d1.year = d2.year := by
    by_contra hne
    rcases Nat.lt_or_ge d1.year d2.year with hlt | hge
    · exact absurd heq (Nat.ne_of_lt (toOrdinal_lt_of_year_lt h1 h2 hlt))
    · have hlt : d2.year < d1.year := by omega
      exact absurd heq.symm (Nat.ne_of_lt (toOrdinal_lt_of_year_lt h2 h1 hlt))
  have ht : monthDaysSum d1.year (d1.month - 1) + d1.day =
      monthDaysSum d2.year (d2.month - 1) + d2.day := by
    unfold toOrdinal at heq
    rw [hy] at heq ⊢
    omega
  have hm : d1.month = d2.month := by
    by_contra hne
    have key : ∀ e1 e2 : CalendarDate, ValidDate e1 → ValidDate e2 →
        e1.year = e2.year → e1.month < e2.month →
        monthDaysSum e1.year (e1.month - 1) + e1.day <
          monthDaysSum e2.year (e2.month - 1) + e2.day := by
      intro e1 e2 v1 v2 hyy hmm
      have a1 := dayOfYear_le e1 v1
      have a2 : monthDaysSum e1.year e1.month ≤
          monthDaysSum e2.year (e2.month - 1) := by
        rw [hyy]
        exact monthDaysSum_le _ (by omega)
      have b2 : 1 ≤ e2.day := v2.2.2.2.1
      omega
    rcases Nat.lt_or_ge d1.month d2.month with hlt | hge
    · exact absurd ht (Nat.ne_of_lt (key d1 d2 h1 h2 hy hlt))
    · have hlt : d2.month < d1.month := by omega
      exact absurd ht.symm (Nat.ne_of_lt (key d2 d1 h2 h1 hy.symm hlt))
  have hd : d1.day = d2.day := by
    rw [hy, hm] at ht
    omega
  cases d1
  cases d2
  simp_all

/-! ### The day loop of the range enumerator -/

theorem daysFrom_valid : ∀ (n : Nat) (d : CalendarDate), ValidDate d →
    ∀ x ∈ daysFrom d n, ValidDate x
  | 0, _, _ => by simp [daysFrom]
  | n + 1, d, hd => by
      intro x hx
      rw [show daysFrom d (n + 1) = d :: daysFrom (nextDay d) n from rfl] at hx
      rcases List.mem_cons.mp hx with rfl | hx
      · exact hd
      · exact daysFrom_valid n (nextDay d) (nextDay_valid hd) x hx

theorem daysFrom_chain : ∀ (n : Nat) (d : CalendarDate), ValidDate d →
    List.Chain' (fun a b => b = nextDay a ∧ toOrdinal b = toOrdinal a + 1)
      (daysFrom d n)
  | 0, _, _ => List.chain'_nil
  | 1, d, _ => by
      rw [show daysFrom d 1 = [d] from rfl]
      exact List.chain'_singleton d
  | n + 2, d, hd => by
      rw [show daysFrom d (n + 2) =
        d :: nextDay d :: daysFrom (nextDay (nextDay d)) n from rfl]
      rw [List.chain'_cons]
      refine ⟨⟨rfl, nextDay_toOrdinal hd⟩, ?_⟩
      have hrec := daysFrom_chain (n + 1) (nextDay d) (nextDay_valid hd)
      rwa [show daysFrom (nextDay d) (n + 1) =
        nextDay d :: daysFrom (nextDay (nextDay d)) n from rfl] at hrec

theorem daysFrom_getLast_ord : ∀ (n : Nat) (d : CalendarDate), ValidDate d →
    ∃ last, (daysFrom d (n + 1)).getLast? = some last ∧ ValidDate last ∧
      toOrdinal last = toOrdinal d + n
  | 0, d, hd => ⟨d, rfl, hd, by omega⟩
  | n + 1, d, hd => by
      obtain ⟨last, hl, hv, ho⟩ := daysFrom_getLast_ord n (nextDay d) (nextDay_valid hd)
      refine ⟨last, ?_, hv, ?_⟩
      · show (d :: daysFrom (nextDay d) (n + 1)).getLast? = some last
        rw [show daysFrom (nextDay d) (n + 1) =
          nextDay d :: daysFrom (nextDay (nextDay d)) n from rfl] at hl ⊢
        rw [List.getLast?_cons_cons]
        exact hl
      · rw [ho, nextDay_toOrdinal hd]
        omega

/-- Claim C6: the enumerator's output is day-major: it is the concatenation,
over the day list, of the per-day lists; the day list starts at January 1 of
the start year, ends at December 31 of the end year, and advances one
Gregorian day (ordinal +1) at each step; within each day, the emitted
sequential-number block values are strictly ascending. -/
theorem C6_deterministic_order (sy ey : Nat) (f : Option Bool)
    (h1 : 1 ≤ sy) (h2 : sy ≤ ey) :
    generate_pesels_for_year_range sy ey f =
      (rangeDays sy ey).flatMap (fun d => pesselsForDay d f) ∧
    (rangeDays sy ey).head? = some ⟨sy, 1, 1⟩ ∧
    (rangeDays sy ey).getLast? = some ⟨ey, 12, 31⟩ ∧
    List.Chain' (fun a b => b = nextDay a ∧ toOrdinal b = toOrdinal a + 1)
      (rangeDays sy ey) ∧
    ∀ d ∈ rangeDays sy ey,
      List.Pairwise (· < ·) ((pesselsForDay d f).map seqBlockVal) := by
  have hstart : ValidDate ⟨sy, 1, 1⟩ :=
    ⟨h1, le_rfl, by norm_num, le_rfl, by
      rw [show daysInMonth sy 1 = 31 from rfl]; norm_num⟩
  have hend : ValidDate ⟨ey, 12, 31⟩ :=
    ⟨show 1 ≤ ey by omega, by norm_num, le_rfl, by norm_num, by
      rw [show daysInMonth ey 12 = 31 from rfl]⟩
  have hords : toOrdinal ⟨sy, 1, 1⟩ ≤ toOrdinal ⟨ey, 12, 31⟩ := by
    unfold toOrdinal
    dsimp only
    have e0 : monthDaysSum sy (1 - 1) = 0 := rfl
    have mono := yearOrd_mono (show sy - 1 ≤ ey - 1 by omega)
    omega
  have hrd : rangeDays sy ey =
      daysFrom ⟨sy, 1, 1⟩
        (toOrdinal ⟨ey, 12, 31⟩ + 1 - toOrdinal ⟨sy, 1, 1⟩) := rfl
  obtain ⟨k, hk⟩ : ∃ k,
      toOrdinal ⟨ey, 12, 31⟩ + 1 - toOrdinal ⟨sy, 1, 1⟩ = k + 1 :=
    ⟨toOrdinal ⟨ey, 12, 31⟩ - toOrdinal ⟨sy, 1, 1⟩, by omega⟩
  refine ⟨rfl, ?_, ?_, ?_, ?_⟩
  · rw [hrd, hk]
    rfl
  · obtain ⟨last, hl, hlv, hlo⟩ := daysFrom_getLast_ord k ⟨sy, 1, 1⟩ hstart
    rw [hrd, hk, hl]
    have : toOrdinal last = toOrdinal ⟨ey, 12, 31⟩ := by omega
    rw [toOrdinal_inj hlv hend this]
  · rw [hrd]
    exact daysFrom_chain _ _ hstart
  · intro d hd
    have hdv : ValidDate d := by
      rw [hrd] at hd
      exact daysFrom_valid _ _ hstart d hd
    match f with
    | none =>
        rw [pesselsForDay_none_map_block d hdv]
        exact List.pairwise_lt_range _
    | some m =>
        rw [pesselsForDay_some_map_block d hdv m]
        exact List.Pairwise.sublist (List.filter_sublist _) (List.pairwise_lt_range _)

theorem C6_witness :
    (generate_pesels_for_year_range 1999 1999 none =
      (rangeDays 1999 1999).flatMap (fun d => pesselsForDay d none) ∧
    (rangeDays 1999 1999).head? = some ⟨1999, 1, 1⟩ ∧
    (rangeDays 1999 1999).getLast? = some ⟨1999, 12, 31⟩ ∧
    List.Chain' (fun a b => b = nextDay a ∧ toOrdinal b = toOrdinal a + 1)
      (rangeDays 1999 1999) ∧
    ∀ d ∈ rangeDays 1999 1999,
      List.Pairwise (· < ·) ((pesselsForDay d none).map seqBlockVal)) :=
  C6_deterministic_order 1999 1999 none (by norm_num) (by norm_num)

end Pesel
